import Mathlib

/-!
Verification of the mutation engine in `src/tools/nudge.cpp` (the "nudge"
tool of the oink parity-game toolkit).

The tool parses a parity game, optionally performs one randomly chosen
graph mutation (six possible actions), optionally restricts to a bottom
SCC, and writes the result.  We embed the graph data model and the whole
mutation loop of `main` as pure Lean functions.  Randomness is modelled by
passing the sampled values explicitly: an `Attempt` record carries every
draw one loop iteration can consume, and the loop consumes a list of
attempts.

The `Game` member functions `addEdge` and `extract_subgame` live in
`game.hpp`, which is not part of the sources here; they are modelled from
the specification (see their doc comments).  Everything else is translated
directly from `nudge.cpp`.
-/

/-- The graph store: node count, per-node owner, forward (`out`) and
backward (`in_`, named `in` in the C++ where it is not a keyword)
adjacency lists.  Node `i`'s data sits at index `i` of each list. -/
structure Game where
  n_nodes : Nat
  owner : List Nat
  out : List (List Nat)
  in_ : List (List Nat)
deriving Repr, DecidableEq

namespace Game

/-- Modelled from the spec: `Game::addEdge(from, to)` is declared in
`game.hpp`, which is not among the sources.  Per the spec it inserts
`(from, to)` into `out[from]` and `in[to]` only if absent and returns
whether an edge was actually added. -/
def addEdge (g : Game) (f t : Nat) : Game × Bool :=
  if t ∈ g.out.getD f [] then (g, false)
  else ({ g with out := g.out.set f (g.out.getD f [] ++ [t]),
                 in_ := g.in_.set t (g.in_.getD t [] ++ [f]) }, true)

/-- First position of `v` in a list, if any. -/
def posIn : List Nat → Nat → Option Nat
  | [], _ => none
  | k :: ks, v => if k = v then some 0 else (posIn ks v).map (· + 1)

/-- Modelled from the spec: `Game::extract_subgame(keep)` is declared in
`game.hpp`, which is not among the sources.  Per the spec it builds a new
graph containing only the nodes of `keep`, with identities renumbered
densely in the order `keep` is given; edges with both endpoints retained
are carried over (renamed), edges with an endpoint outside `keep` are
silently dropped. -/
def extract_subgame (g : Game) (keep : List Nat) : Game :=
  { n_nodes := keep.length
    owner := keep.map (fun v => g.owner.getD v 0)
    out := keep.map (fun v => (g.out.getD v []).filterMap (posIn keep))
    in_ := keep.map (fun v => (g.in_.getD v []).filterMap (posIn keep)) }

/-- All node attribute lists have length `n_nodes` and every adjacency
entry is a valid node. -/
def wf (g : Game) : Prop :=
  g.owner.length = g.n_nodes ∧ g.out.length = g.n_nodes ∧
  g.in_.length = g.n_nodes ∧
  (∀ l ∈ g.out, ∀ v ∈ l, v < g.n_nodes) ∧
  (∀ l ∈ g.in_, ∀ v ∈ l, v < g.n_nodes)

instance (g : Game) : Decidable g.wf := by
  unfold wf; infer_instance

/-- Invariant I1 (adjacency symmetry): `m ∈ out[n]` iff `n ∈ in[m]`. -/
def symmetric (g : Game) : Prop :=
  ∀ n < g.n_nodes, ∀ m < g.n_nodes,
    (m ∈ g.out.getD n [] ↔ n ∈ g.in_.getD m [])

instance (g : Game) : Decidable g.symmetric := by
  unfold symmetric; infer_instance

/-- Invariant I2 (no duplicates): no adjacency list repeats an entry. -/
def noDup (g : Game) : Prop :=
  (∀ l ∈ g.out, l.Nodup) ∧ (∀ l ∈ g.in_, l.Nodup)

instance (g : Game) : Decidable g.noDup := by
  unfold noDup; infer_instance

end Game

/-- The node indices kept when node `n` is deleted: `0, …, n_nodes-1`
without `n`, in increasing order (`tokeep` in `nudge.cpp`). -/
def keepList (n N : Nat) : List Nat :=
  (List.range N).filter (fun i => n ≠ i)

/-- Node deletion as performed by actions 1 and 2 of `nudge.cpp`:
extract the subgame over all nodes except `n`. -/
def removeNode (g : Game) (n : Nat) : Game :=
  g.extract_subgame (keepList n g.n_nodes)

/-- The random draws one iteration of the mutation loop may consume:
the node sample, the action slot, and the three action-specific draws
(action 0's edge index, action 4's predecessor index, action 5's target
node).  Only the draws the taken branch actually reads are meaningful. -/
structure Attempt where
  rNode : Nat
  rSlot : Nat
  rEdge : Nat
  rPred : Nat
  rTarget : Nat
deriving Repr, DecidableEq

/-- Action selection (`nudge.cpp` lines 89-100): profile 0 uses the slot
directly (actions 0-3); profile 1 samples a slot in 0-2 and redirects
slot 1 to action 3 and slot 2 to action 5; any other profile uses the
slot directly (actions 0-5). -/
def chooseAction (profile : Int) (slot : Nat) : Nat :=
  if profile = 0 then slot
  else if profile = 1 then
    (if slot = 1 then 3 else if slot = 2 then 5 else slot)
  else slot

/-- Action 0 (`nudge.cpp` lines 105-114): if node `n` has at least two
successors, remove the successor at the sampled index from `out[n]` and
erase every occurrence of `n` from `in[m]`. -/
def action0 (g : Game) (n rEdge : Nat) : Game × Bool :=
  if (g.out.getD n []).length > 1 then
    let m := (g.out.getD n []).getD rEdge 0
    ({ g with out := g.out.set n ((g.out.getD n []).eraseIdx rEdge),
              in_ := g.in_.set m ((g.in_.getD m []).filter (fun x => x ≠ n)) },
     true)
  else (g, false)

/-- The edge-forwarding phase of action 1 (`nudge.cpp` lines 118-121):
for every predecessor `from` of `n`, add an edge to every successor of
`n`.  The iterated lists are stable during the C++ loop because the
precondition `out[n] = [to]` with `to ≠ n` rules out any mutation of
`in[n]` or `out[n]` by `addEdge`. -/
def action1_pre (g : Game) (n : Nat) : Game :=
  (g.in_.getD n []).foldl
    (fun acc f => (g.out.getD n []).foldl (fun acc2 t => (acc2.addEdge f t).1) acc)
    g

/-- Action 1 (`nudge.cpp` lines 115-129): if node `n` has exactly one
successor and it is not `n` itself, forward all edges through `n` and
then delete `n`. -/
def action1 (g : Game) (n : Nat) : Game × Bool :=
  if (g.out.getD n []).length = 1 ∧ (g.out.getD n []).getD 0 0 ≠ n then
    (removeNode (action1_pre g n) n, true)
  else (g, false)

/-- Action 2 (`nudge.cpp` lines 130-137): delete node `n`. -/
def action2 (g : Game) (n : Nat) : Game × Bool :=
  (removeNode g n, true)

/-- Action 3 (`nudge.cpp` lines 138-141): flip the owner of node `n`. -/
def action3 (g : Game) (n : Nat) : Game × Bool :=
  ({ g with owner := g.owner.set n (1 - g.owner.getD n 0) }, true)

/-- Action 4 (`nudge.cpp` lines 142-159): if `in[n]` is non-empty, pick
the sampled predecessor `f`; fail if `f = n`; otherwise erase every
occurrence of `n` from `out[f]` and then, for each successor `t` of `n`
not already in `out[f]`, push `t` onto `out[f]` and `f` onto `in[t]`.
Note that the C++ does *not* remove `f` from `in[n]`. -/
def action4 (g : Game) (n rPred : Nat) : Game × Bool :=
  if (g.in_.getD n []).length > 0 then
    let f := (g.in_.getD n []).getD rPred 0
    if f ≠ n then
      let g1 : Game :=
        { g with out := g.out.set f ((g.out.getD f []).filter (fun x => x ≠ n)) }
      let g2 := (g1.out.getD n []).foldl
        (fun acc t =>
          if t ∈ acc.out.getD f [] then acc
          else { acc with out := acc.out.set f (acc.out.getD f [] ++ [t]),
                          in_ := acc.in_.set t (acc.in_.getD t [] ++ [f]) })
        g1
      (g2, true)
    else (g, false)
  else (g, false)

/-- Action 5 (`nudge.cpp` lines 160-163): add the edge from `n` to the
sampled target; succeed iff an edge was actually added. -/
def action5 (g : Game) (n rTarget : Nat) : Game × Bool :=
  g.addEdge n rTarget

/-- One iteration of the mutation loop body (`nudge.cpp` lines 74-164):
sample a node and an action, run the action; the boolean tells whether
the budget `left` is decremented. -/
def stepAttempt (profile : Int) (g : Game) (a : Attempt) : Game × Bool :=
  let n := a.rNode
  let action := chooseAction profile a.rSlot
  if action = 0 then action0 g n a.rEdge
  else if action = 1 then action1 g n
  else if action = 2 then action2 g n
  else if action = 3 then action3 g n
  else if action = 4 then action4 g n a.rPred
  else if action = 5 then action5 g n a.rTarget
  else (g, false)

/-- The mutation loop `while (left > 0)` of `nudge.cpp`, driven by a list
of attempts.  Returns the final graph and the number of successful
actions performed, or `none` when the supplied attempts run out before
the budget is exhausted (the C++ loop would keep resampling). -/
def run (profile : Int) : Nat → Game → List Attempt → Option (Game × Nat)
  | 0, g, _ => some (g, 0)
  | _ + 1, _, [] => none
  | l + 1, g, a :: as =>
    let p := stepAttempt profile g a
    if p.2 then (run profile l p.1 as).map (fun q => (q.1, q.2 + 1))
    else run profile (l + 1) p.1 as

/-- The success budget of the mutation loop (`nudge.cpp` lines 66-72):
`left = 1` when the modify option is given (its integer value is the
profile, never a count), `left = 0` otherwise. -/
def initBudget (modify : Option Int) : Nat :=
  match modify with
  | some _ => 1
  | none => 0

/-- The inclusive `(low, high)` bounds of every `rng` call one loop
iteration performs, in program order: the node sample (line 78), the
action-slot sample (lines 92/95/99), then any action-specific draw
(lines 108, 145, 162).  Bounds are integers because the C++ computes
`n_nodes - 1` and `size() - 1` in a signed type. -/
def attemptCalls (profile : Int) (g : Game) (a : Attempt) : List (Int × Int) :=
  let n := a.rNode
  let action := chooseAction profile a.rSlot
  ((0 : Int), (g.n_nodes : Int) - 1) ::
  ((0 : Int), if profile = 0 then (3 : Int) else if profile = 1 then 2 else 5) ::
  (if action = 0 then
     (if (g.out.getD n []).length > 1 then
        [((0 : Int), ((g.out.getD n []).length : Int) - 1)] else [])
   else if action = 4 then
     (if (g.in_.getD n []).length > 0 then
        [((0 : Int), ((g.in_.getD n []).length : Int) - 1)] else [])
   else if action = 5 then [((0 : Int), (g.n_nodes : Int) - 1)]
   else [])

/-- The inclusive bounds of the `rng` call made at `nudge.cpp` line 171,
sampling the start node for the bottom-SCC restriction, on the graph as
it stands after the mutation loop. -/
def bottomSccCall (g : Game) : Int × Int :=
  ((0 : Int), (g.n_nodes : Int) - 1)

/-! ### Basic list helpers -/

lemma getD_set_self {α} (l : List α) (i : Nat) (x d : α) (h : i < l.length) :
    (l.set i x).getD i d = x := by
  rw [List.getD_eq_getElem?_getD, List.getElem?_set_self h]
  rfl

lemma getD_set_ne {α} (l : List α) (i j : Nat) (x d : α) (h : i ≠ j) :
    (l.set i x).getD j d = l.getD j d := by
  rw [List.getD_eq_getElem?_getD, List.getElem?_set_ne h, ← List.getD_eq_getElem?_getD]

lemma lt_length_of_getD_ne_nil {α} (l : List (List α)) (i : Nat)
    (h : l.getD i [] ≠ []) : i < l.length := by
  by_contra hc
  exact h (List.getD_eq_default l [] (Nat.le_of_not_lt hc))

lemma getD_eq_getElem {α} (l : List α) (d : α) (i : Nat) (h : i < l.length) :
    l.getD i d = l[i] := by
  rw [List.getD_eq_getElem?_getD, List.getElem?_eq_getElem h]
  rfl

lemma getD_range (N i : Nat) (h : i < N) : (List.range N).getD i 0 = i := by
  rw [getD_eq_getElem _ _ _ (by simpa using h)]
  exact List.getElem_range i _

/-! ### `posIn` lemmas -/

lemma posIn_lt_length (l : List Nat) (v j : Nat) (h : Game.posIn l v = some j) :
    j < l.length := by
  induction l generalizing j with
  | nil => simp [Game.posIn] at h
  | cons k ks ih =>
    rw [Game.posIn] at h
    by_cases hk : k = v
    · rw [if_pos hk] at h
      injection h with h
      subst h
      simp
    · rw [if_neg hk] at h
      cases hks : Game.posIn ks v with
      | none => rw [hks] at h; simp at h
      | some i =>
        rw [hks] at h
        injection h with h
        subst h
        have := ih i hks
        simp only [List.length_cons]
        omega

lemma posIn_eq_none_of_not_mem (l : List Nat) (v : Nat) (h : v ∉ l) :
    Game.posIn l v = none := by
  induction l with
  | nil => rfl
  | cons k ks ih =>
    rw [Game.posIn, if_neg (by intro hk; exact h (hk ▸ List.mem_cons_self k ks)),
      ih (fun hm => h (List.mem_cons_of_mem k hm))]
    rfl

lemma posIn_append_some (xs ys : List Nat) (v i : Nat)
    (h : Game.posIn xs v = some i) : Game.posIn (xs ++ ys) v = some i := by
  induction xs generalizing i with
  | nil => simp [Game.posIn] at h
  | cons k ks ih =>
    rw [Game.posIn] at h
    rw [List.cons_append, Game.posIn]
    by_cases hk : k = v
    · rwa [if_pos hk] at h ⊢
    · rw [if_neg hk] at h ⊢
      cases hks : Game.posIn ks v with
      | none => rw [hks] at h; simp at h
      | some j =>
        rw [hks] at h
        rw [ih j hks]
        exact h

lemma posIn_append_none (xs ys : List Nat) (v : Nat)
    (h : Game.posIn xs v = none) :
    Game.posIn (xs ++ ys) v = (Game.posIn ys v).map (· + xs.length) := by
  induction xs with
  | nil =>
    simp only [List.nil_append, List.length_nil]
    cases hys : Game.posIn ys v <;> simp
  | cons k ks ih =>
    rw [Game.posIn] at h
    rw [List.cons_append, Game.posIn]
    by_cases hk : k = v
    · rw [if_pos hk] at h; simp at h
    · rw [if_neg hk] at h ⊢
      simp only [Option.map_eq_none'] at h
      rw [ih h]
      cases hys : Game.posIn ys v with
      | none => rfl
      | some j =>
        simp only [Option.map_some', Option.some.injEq, List.length_cons]
        omega

lemma posIn_range (N v : Nat) :
    Game.posIn (List.range N) v = if v < N then some v else none := by
  induction N with
  | zero => simp [Game.posIn]
  | succ N ih =>
    rw [List.range_succ]
    by_cases hv : v < N
    · rw [posIn_append_some _ _ _ _ (by rw [ih, if_pos hv]), if_pos (by omega)]
    · rw [posIn_append_none _ _ _ (by rw [ih, if_neg hv])]
      by_cases hvN : v = N
      · subst hvN
        rw [if_pos (by omega)]
        simp [Game.posIn, List.length_range]
      · rw [if_neg (by omega)]
        have hNv : ¬ (N = v) := fun h => hvN h.symm
        simp [Game.posIn, hNv]

/-! ### `keepList` lemmas -/

lemma mem_keepList (n N v : Nat) : v ∈ keepList n N ↔ v < N ∧ n ≠ v := by
  unfold keepList
  simp [List.mem_filter, List.mem_range]

lemma keepList_of_ge (n N : Nat) (h : N ≤ n) : keepList n N = List.range N := by
  unfold keepList
  rw [List.filter_eq_self]
  intro a ha
  simp only [List.mem_range] at ha
  simp only [decide_eq_true_eq]
  omega

lemma keepList_succ (n N : Nat) :
    keepList n (N + 1) = keepList n N ++ (if n = N then [] else [N]) := by
  unfold keepList
  rw [List.range_succ, List.filter_append]
  congr 1
  by_cases h : n = N <;> simp [List.filter, h]

lemma length_keepList (n N : Nat) : n < N → (keepList n N).length = N - 1 := by
  induction N with
  | zero => omega
  | succ M ih =>
    intro h
    rw [keepList_succ]
    by_cases hn : n = M
    · subst hn
      rw [if_pos rfl, List.append_nil, keepList_of_ge n n le_rfl, List.length_range]
      omega
    · rw [if_neg hn, List.length_append, ih (by omega), List.length_singleton]
      omega

lemma getD_keepList (n N i : Nat) :
    n < N → i < N - 1 → (keepList n N).getD i 0 = if i < n then i else i + 1 := by
  induction N with
  | zero => omega
  | succ M ih =>
    intro hn hi
    rw [keepList_succ]
    by_cases hnM : n = M
    · rw [if_pos hnM, List.append_nil]
      subst hnM
      rw [keepList_of_ge n n le_rfl, getD_range n i (by omega), if_pos (by omega)]
    · rw [if_neg hnM]
      have hn' : n < M := by omega
      by_cases hi' : i < M - 1
      · rw [List.getD_append _ _ _ _ (by rw [length_keepList n M hn']; omega)]
        exact ih hn' hi'
      · have hiM : i = M - 1 := by omega
        rw [List.getD_append_right _ _ _ _ (by rw [length_keepList n M hn']; omega),
          length_keepList n M hn', hiM, Nat.sub_self]
        rw [if_neg (by omega)]
        show M = M - 1 + 1
        omega

lemma posIn_keepList_lt (n N v : Nat) (hvn : v ≠ n) :
    v < N → Game.posIn (keepList n N) v = some (if v < n then v else v - 1) := by
  induction N with
  | zero => omega
  | succ M ih =>
    intro hvN
    rw [keepList_succ]
    by_cases hv : v < M
    · exact posIn_append_some _ _ _ _ (ih hv)
    · have hvM : v = M := by omega
      subst hvM
      have hnv : ¬ (n = v) := fun h => hvn h.symm
      rw [posIn_append_none _ _ _
        (posIn_eq_none_of_not_mem _ _ (by rw [mem_keepList]; omega))]
      rw [if_neg hnv]
      rw [show Game.posIn [v] v = some 0 from by rw [Game.posIn, if_pos rfl]]
      by_cases hn : n < v
      · rw [length_keepList n v hn, if_neg (show ¬ v < n by omega)]
        simp
      · rw [keepList_of_ge n v (by omega), List.length_range,
          if_pos (show v < n by omega)]
        simp

lemma posIn_keepList (n N v : Nat) :
    Game.posIn (keepList n N) v =
      if v = n ∨ N ≤ v then none else some (if v < n then v else v - 1) := by
  by_cases hvn : v = n
  · rw [if_pos (Or.inl hvn)]
    subst hvn
    exact posIn_eq_none_of_not_mem _ _ (by rw [mem_keepList]; omega)
  · by_cases hNv : N ≤ v
    · rw [if_pos (Or.inr hNv)]
      exact posIn_eq_none_of_not_mem _ _ (by rw [mem_keepList]; omega)
    · rw [if_neg (by tauto)]
      exact posIn_keepList_lt n N v hvn (by omega)

/-! ### Engine helper lemmas -/

lemma addEdge_n_nodes (g : Game) (f t : Nat) : (g.addEdge f t).1.n_nodes = g.n_nodes := by
  unfold Game.addEdge
  split <;> rfl

lemma foldl_addEdge_n_nodes (ts : List Nat) (f : Nat) :
    ∀ g : Game, (ts.foldl (fun acc2 t => (acc2.addEdge f t).1) g).n_nodes = g.n_nodes := by
  induction ts with
  | nil => intro g; rfl
  | cons t ts ih => intro g; rw [List.foldl_cons, ih, addEdge_n_nodes]

lemma action1_pre_n_nodes (g : Game) (n : Nat) :
    (action1_pre g n).n_nodes = g.n_nodes := by
  unfold action1_pre
  generalize (g.out.getD n []) = ts
  generalize (g.in_.getD n []) = fs
  induction fs generalizing g with
  | nil => rfl
  | cons f fs ih => rw [List.foldl_cons, ih, foldl_addEdge_n_nodes]

/-- A failed attempt leaves the graph untouched (`nudge.cpp`: every failure
path exits before any mutation). -/
lemma stepAttempt_fail_eq (profile : Int) (g : Game) (a : Attempt)
    (h : (stepAttempt profile g a).2 = false) : (stepAttempt profile g a).1 = g := by
  unfold stepAttempt action0 action1 action2 action3 action4 action5 Game.addEdge at h ⊢
  dsimp only at h ⊢
  split_ifs at h ⊢ <;> rfl

/-- Whenever `run` completes, the number of successes it performed is the
initial budget. -/
lemma run_count_eq (profile : Int) :
    ∀ (as : List Attempt) (l : Nat) (g g' : Game) (k : Nat),
      run profile l g as = some (g', k) → k = l := by
  intro as
  induction as with
  | nil =>
    intro l g g' k h
    cases l with
    | zero =>
      simp only [run, Option.some.injEq, Prod.mk.injEq] at h
      omega
    | succ l => simp [run] at h
  | cons a as ih =>
    intro l g g' k h
    cases l with
    | zero =>
      simp only [run, Option.some.injEq, Prod.mk.injEq] at h
      omega
    | succ l =>
      rw [run] at h
      by_cases hs : (stepAttempt profile g a).2
      · rw [if_pos hs] at h
        cases hr : run profile l (stepAttempt profile g a).1 as with
        | none => rw [hr] at h; simp at h
        | some q =>
          rw [hr] at h
          simp only [Option.map_some', Option.some.injEq, Prod.mk.injEq] at h
          have := ih l _ q.1 q.2 (by rw [hr])
          omega
      · rw [if_neg hs] at h
        exact ih (l + 1) _ g' k h

/-! ### Concrete games and attempts used as inputs -/

/-- Two nodes, single edge `0 → 1`. -/
def gSym : Game := ⟨2, [0, 0], [[1], []], [[], [0]]⟩

/-- Three nodes, edges `0 → 1` and `1 → 2` (the action-1 example of the spec). -/
def gChain : Game := ⟨3, [0, 0, 0], [[1], [2], []], [[], [0], [1]]⟩

/-- `gChain` after flipping the owner of node 0. -/
def gChainFlip : Game := ⟨3, [1, 0, 0], [[1], [2], []], [[], [0], [1]]⟩

/-- A single node with no edges. -/
def gOne : Game := ⟨1, [0], [[]], [[]]⟩

/-- Two nodes, edges `0 → 0` and `0 → 1`. -/
def gTwoOut : Game := ⟨2, [0, 0], [[0, 1], []], [[0], [0]]⟩

/-- The end-to-end example of the spec: edges `0→1, 1→2, 2→0, 2→3`,
owners `[0, 1, 0, 1]`. -/
def gExample4 : Game := ⟨4, [0, 1, 0, 1], [[1], [2], [0, 3], []], [[2], [0], [1], [2]]⟩

/-- Attempt: node 1, action slot 4, all other draws at index 0. -/
def aNode1Act4 : Attempt := ⟨1, 4, 0, 0, 0⟩

/-- Attempt: node 0, action slot 2, all other draws at index 0. -/
def aNode0Act2 : Attempt := ⟨0, 2, 0, 0, 0⟩

/-- Attempt: node 0, action slot 3. -/
def aNode0Act3 : Attempt := ⟨0, 3, 0, 0, 0⟩

/-- Attempt: node 0, action slot 0. -/
def aNode0Act0 : Attempt := ⟨0, 0, 0, 0, 0⟩

/-! ### Claim theorems -/

/-- C1: the claim states that every successful mutation action preserves
adjacency symmetry (I1) and duplicate-freedom (I2).  The code violates
this: on the reachable (initial) well-formed, symmetric, duplicate-free
graph with the single edge `0 → 1`, action 4 on node 1 with sampled
predecessor 0 succeeds (decrements the budget) yet yields a graph that is
not symmetric — `0` is still recorded in `in[1]` although `1` has been
removed from `out[0]`. -/
theorem C1_action4_breaks_symmetry :
    gSym.wf ∧ gSym.symmetric ∧ gSym.noDup ∧
    (stepAttempt 2 gSym aNode1Act4).2 = true ∧
    ¬ (stepAttempt 2 gSym aNode1Act4).1.symmetric := by decide

/-- C2: the claim states that a successful action 4 removes the edge
`(from, n)` from both `out[from]` and `in[n]`.  On the graph
`0 → 1 → 2`, action 4 on node `n = 1` with predecessor `from = 0`
succeeds, removes `1` from `out[0]` and rewires `0 → 2` (so
`out[0] = [2]` and `in[2] = [1, 0]`), but `in[1]` still contains `0`:
the code never erases `from` from `in[n]`. -/
theorem C2_action4_keeps_stale_in_entry :
    (stepAttempt 2 gChain aNode1Act4).2 = true ∧
    (stepAttempt 2 gChain aNode1Act4).1.out.getD 0 [] = [2] ∧
    (stepAttempt 2 gChain aNode1Act4).1.in_.getD 2 [] = [1, 0] ∧
    (stepAttempt 2 gChain aNode1Act4).1.in_.getD 1 [] = [0] := by decide

/-- C3: with the modify option present the mutation budget is exactly 1
(the option's integer argument is the profile, not a count), without it
the budget is 0 and the loop leaves the graph unchanged; no option value
yields a budget above 1. -/
theorem C3_single_mutation_budget :
    (∀ p : Int, initBudget (some p) = 1) ∧
    initBudget none = 0 ∧
    (∀ m : Option Int, initBudget m ≤ 1) ∧
    (∀ (p : Int) (g : Game) (as : List Attempt),
      run p (initBudget none) g as = some (g, 0)) := by
  refine ⟨fun p => rfl, rfl, ?_, ?_⟩
  · intro m
    cases m <;> simp [initBudget]
  · intro p g as
    cases as <;> rfl

/-- C4: whenever the mutation loop completes, the number of successful
actions performed equals the initial budget, and an attempt that fails
leaves the graph (hence the remaining budget and all loop state)
unchanged — it is simply retried with the next samples. -/
theorem C4_budget_accounting :
    (∀ (profile : Int) (l : Nat) (g : Game) (as : List Attempt)
       (g' : Game) (k : Nat), run profile l g as = some (g', k) → k = l) ∧
    (∀ (profile : Int) (g : Game) (a : Attempt),
      (stepAttempt profile g a).2 = false → (stepAttempt profile g a).1 = g) :=
  ⟨fun profile l g as g' k h => run_count_eq profile as l g g' k h,
   fun profile g a h => stepAttempt_fail_eq profile g a h⟩

/-- Witness for C4: a run with budget 1 performs exactly 1 success, and a
concrete failing attempt (action 0 on a node with no successors) leaves
the graph unchanged. -/
theorem C4_budget_accounting_witness :
    (1 : Nat) = 1 ∧ (stepAttempt 0 gOne aNode0Act0).1 = gOne :=
  ⟨C4_budget_accounting.1 2 1 gChain [aNode0Act3] gChainFlip 1 (by decide),
   C4_budget_accounting.2 0 gOne aNode0Act0 (by decide)⟩

/-- C5: the slot-to-action maps of the three profiles are bijections onto
the claimed action sets (so a uniform slot draw yields a uniform action):
profile 0 maps slots 0-3 to actions `{0,1,2,3}`, profile 1 maps slots 0-2
to `{0,3,5}` (slot 1 to 3, slot 2 to 5), and any other profile value (the
full profile) maps slots 0-5 identically to `{0,1,2,3,4,5}`. -/
theorem C5_profile_action_sets :
    (List.range 4).map (chooseAction 0) = [0, 1, 2, 3] ∧
    (List.range 3).map (chooseAction 1) = [0, 3, 5] ∧
    (∀ p : Int, p ≠ 0 → p ≠ 1 →
      (List.range 6).map (chooseAction p) = [0, 1, 2, 3, 4, 5]) := by
  refine ⟨by decide, by decide, ?_⟩
  intro p h0 h1
  have hc : ∀ s : Nat, chooseAction p s = s := by
    intro s
    simp [chooseAction, h0, h1]
  rw [show List.range 6 = [0, 1, 2, 3, 4, 5] by rfl]
  simp [hc]

/-- Witness for C5: the full profile instantiated at profile value 2. -/
theorem C5_profile_action_sets_witness :
    (List.range 6).map (chooseAction 2) = [0, 1, 2, 3, 4, 5] :=
  C5_profile_action_sets.2.2 2 (by decide) (by decide)

/-- When the sampled action is 5, the loop body is exactly `addEdge` on
the sampled node and target, with the success flag as returned
(`nudge.cpp` line 162). -/
lemma stepAttempt_action5 (profile : Int) (g : Game) (a : Attempt)
    (h5 : chooseAction profile a.rSlot = 5) :
    stepAttempt profile g a = g.addEdge a.rNode a.rTarget := by
  unfold stepAttempt
  rw [h5]
  rfl

/-- C6: `addEdge(n, m)` returns true exactly when `m` was absent from
`out[n]`; on false it leaves the whole graph unchanged (including the
already-present self-loop case `n = m`); on true it appends `m` to
`out[n]` and `n` to `in[m]` and touches no other list; and action 5 is
exactly an `addEdge` call whose boolean return drives the budget
decrement. -/
theorem C6_addEdge_spec (g : Game) (n m : Nat) :
    ((g.addEdge n m).2 = true ↔ m ∉ g.out.getD n []) ∧
    ((g.addEdge n m).2 = false → (g.addEdge n m).1 = g) ∧
    ((g.addEdge n m).2 = true → n < g.out.length →
      (g.addEdge n m).1.out.getD n [] = g.out.getD n [] ++ [m]) ∧
    ((g.addEdge n m).2 = true → m < g.in_.length →
      (g.addEdge n m).1.in_.getD m [] = g.in_.getD m [] ++ [n]) ∧
    (∀ k, k ≠ n → (g.addEdge n m).1.out.getD k [] = g.out.getD k []) ∧
    (∀ k, k ≠ m → (g.addEdge n m).1.in_.getD k [] = g.in_.getD k []) ∧
    (g.addEdge n m).1.owner = g.owner ∧
    (g.addEdge n m).1.n_nodes = g.n_nodes ∧
    (∀ (profile : Int) (a : Attempt), chooseAction profile a.rSlot = 5 →
      stepAttempt profile g a = g.addEdge a.rNode a.rTarget) := by
  unfold Game.addEdge
  by_cases hm : m ∈ g.out.getD n []
  · rw [if_pos hm]
    exact ⟨by simpa using hm, fun _ => rfl, fun h => absurd h (by simp),
      fun h => absurd h (by simp), fun k _ => rfl, fun k _ => rfl, rfl, rfl,
      fun profile a h5 => by rw [stepAttempt_action5 profile g a h5]; rfl⟩
  · rw [if_neg hm]
    refine ⟨by simpa using hm, by simp, fun _ hn => getD_set_self _ _ _ _ hn,
      fun _ hmlen => getD_set_self _ _ _ _ hmlen,
      fun k hk => getD_set_ne _ _ _ _ _ (fun h => hk h.symm),
      fun k hk => getD_set_ne _ _ _ _ _ (fun h => hk h.symm), rfl, rfl,
      fun profile a h5 => by rw [stepAttempt_action5 profile g a h5]; rfl⟩

/-- Witness for C6: concrete instances — adding the absent edge `0 → 2`
to `gChain` appends to `out[0]` and `in[2]`; re-adding the present edge
`0 → 1` fails and leaves the graph unchanged; an action-5 attempt equals
the `addEdge` call. -/
theorem C6_addEdge_spec_witness :
    ((gChain.addEdge 0 2).2 = true ↔ 2 ∉ gChain.out.getD 0 []) ∧
    (gChain.addEdge 0 2).1.out.getD 0 [] = gChain.out.getD 0 [] ++ [2] ∧
    (gChain.addEdge 0 2).1.in_.getD 2 [] = gChain.in_.getD 2 [] ++ [0] ∧
    (gChain.addEdge 0 1).1 = gChain ∧
    stepAttempt 2 gChain ⟨0, 5, 0, 0, 2⟩ = gChain.addEdge 0 2 :=
  ⟨(C6_addEdge_spec gChain 0 2).1,
   (C6_addEdge_spec gChain 0 2).2.2.1 (by decide) (by decide),
   (C6_addEdge_spec gChain 0 2).2.2.2.1 (by decide) (by decide),
   (C6_addEdge_spec gChain 0 1).2.1 (by decide),
   (C6_addEdge_spec gChain 0 2).2.2.2.2.2.2.2.2 2 ⟨0, 5, 0, 0, 2⟩ (by decide)⟩

/-- C7: for a node `n` with at least two successors, action 0 always
succeeds; afterwards `out[n]` is exactly the original list with the
sampled index removed (one entry fewer, others in order), `n` no longer
appears in `in[m]` for the removed successor `m`, and every other
adjacency list, the owners and the node count are unchanged. -/
theorem C7_action0_postcondition (g : Game) (n i : Nat)
    (h2 : 2 ≤ (g.out.getD n []).length) (hi : i < (g.out.getD n []).length) :
    (action0 g n i).2 = true ∧
    (action0 g n i).1.out.getD n [] = (g.out.getD n []).eraseIdx i ∧
    ((action0 g n i).1.out.getD n []).length + 1 = (g.out.getD n []).length ∧
    n ∉ (action0 g n i).1.in_.getD ((g.out.getD n []).getD i 0) [] ∧
    (∀ k, k ≠ n → (action0 g n i).1.out.getD k [] = g.out.getD k []) ∧
    (∀ k, k ≠ (g.out.getD n []).getD i 0 →
      (action0 g n i).1.in_.getD k [] = g.in_.getD k []) ∧
    (action0 g n i).1.owner = g.owner ∧
    (action0 g n i).1.n_nodes = g.n_nodes := by
  have hn : n < g.out.length := by
    apply lt_length_of_getD_ne_nil
    intro hnil
    rw [hnil] at h2
    simp at h2
  unfold action0
  rw [if_pos (by omega)]
  refine ⟨rfl, ?_, ?_, ?_, ?_, ?_, rfl, rfl⟩
  · exact getD_set_self _ _ _ _ hn
  · rw [getD_set_self _ _ _ _ hn, List.length_eraseIdx, if_pos hi]
    omega
  · by_cases hmlen : (g.out.getD n []).getD i 0 < g.in_.length
    · rw [getD_set_self _ _ _ _ hmlen]
      simp [List.mem_filter]
    · rw [List.getD_eq_default _ _ (by rw [List.length_set]; omega)]
      simp
  · intro k hk
    exact getD_set_ne _ _ _ _ _ (fun h => hk h.symm)
  · intro k hk
    exact getD_set_ne _ _ _ _ _ (fun h => hk h.symm)

/-- Witness for C7: action 0 on node 0 of the graph with `out[0] = [0, 1]`,
removing index 1, succeeds. -/
theorem C7_action0_postcondition_witness : (action0 gTwoOut 0 1).2 = true :=
  (C7_action0_postcondition gTwoOut 0 1 (by decide) (by decide)).1

/-- C8: action 1 succeeds exactly when `out[n]` is a single non-self
successor; on success it forwards the predecessors' edges and deletes `n`
by subgraph extraction over all other nodes (so the node count drops by
one); on the spec's example graph `0→1, 1→2`, action 1 on node 1 yields
the two-node graph with the single renumbered edge `0→1`. -/
theorem C8_action1_conformance :
    (∀ (g : Game) (n : Nat), ((action1 g n).2 = true ↔
      ((g.out.getD n []).length = 1 ∧ (g.out.getD n []).getD 0 0 ≠ n))) ∧
    action1 gChain 1 = (⟨2, [0, 0], [[1], []], [[], [0]]⟩, true) ∧
    (∀ (g : Game) (n : Nat), (action1 g n).2 = true →
      (action1 g n).1 = removeNode (action1_pre g n) n) ∧
    (∀ (g : Game) (n : Nat), (action1 g n).2 = true → n < g.n_nodes →
      (action1 g n).1.n_nodes = g.n_nodes - 1) := by
  refine ⟨?_, by decide, ?_, ?_⟩
  · intro g n
    unfold action1
    split_ifs with h
    · simpa using h
    · simpa using h
  · intro g n hs
    unfold action1 at hs ⊢
    split_ifs at hs ⊢
    all_goals rfl
  · intro g n hs hn
    unfold action1 at hs ⊢
    split_ifs at hs ⊢ with h
    all_goals
      show (keepList n (action1_pre g n).n_nodes).length = g.n_nodes - 1
    all_goals rw [action1_pre_n_nodes, length_keepList n g.n_nodes hn]

/-- Witness for C8: on the example graph the node count drops from 3 to 2. -/
theorem C8_action1_conformance_witness : (action1 gChain 1).1.n_nodes = 3 - 1 :=
  C8_action1_conformance.2.2.2 gChain 1 (by decide) (by decide)

lemma getD_map {α β} (f : α → β) (l : List α) (i : Nat) (d : β) (d' : α)
    (h : i < l.length) : (l.map f).getD i d = f (l.getD i d') := by
  rw [getD_eq_getElem _ _ _ (by simpa using h), List.getElem_map,
    getD_eq_getElem _ _ _ h]

/-- C9: after deleting node `n` (actions 1 and 2 both delete via
`removeNode`), the surviving graph has exactly `n_nodes - 1` densely
numbered nodes, is well-formed (every adjacency entry names a surviving
node), and index `i` of the new graph carries the data of old node `i`
(when `i < n`) or `i + 1` (when `i ≥ n`) in the original relative order,
with every adjacency entry rewritten by the shift `v ↦ v` (`v < n`),
`v ↦ v - 1` (`v > n`), entries equal to `n` dropped. -/
theorem C9_dense_indexing (g : Game) (n : Nat) (hg : g.wf) (hn : n < g.n_nodes) :
    (removeNode g n).n_nodes = g.n_nodes - 1 ∧
    (removeNode g n).wf ∧
    (∀ i, i < g.n_nodes - 1 →
      (removeNode g n).owner.getD i 0 =
        g.owner.getD (if i < n then i else i + 1) 0 ∧
      (removeNode g n).out.getD i [] =
        (g.out.getD (if i < n then i else i + 1) []).filterMap
          (fun v => if v = n then none else some (if v < n then v else v - 1)) ∧
      (removeNode g n).in_.getD i [] =
        (g.in_.getD (if i < n then i else i + 1) []).filterMap
          (fun v => if v = n then none else some (if v < n then v else v - 1))) := by
  obtain ⟨hol, houtl, hinl, hout, hin⟩ := hg
  have hklen : (keepList n g.n_nodes).length = g.n_nodes - 1 :=
    length_keepList n g.n_nodes hn
  refine ⟨hklen, ⟨?_, ?_, ?_, ?_, ?_⟩, ?_⟩
  · show ((keepList n g.n_nodes).map _).length = (keepList n g.n_nodes).length
    rw [List.length_map]
  · show ((keepList n g.n_nodes).map _).length = (keepList n g.n_nodes).length
    rw [List.length_map]
  · show ((keepList n g.n_nodes).map _).length = (keepList n g.n_nodes).length
    rw [List.length_map]
  · intro l hl v hv
    show v < (keepList n g.n_nodes).length
    simp only [removeNode, Game.extract_subgame, List.mem_map] at hl
    obtain ⟨w, hw, rfl⟩ := hl
    rw [List.mem_filterMap] at hv
    obtain ⟨u, hu, hpos⟩ := hv
    exact posIn_lt_length _ _ _ hpos
  · intro l hl v hv
    show v < (keepList n g.n_nodes).length
    simp only [removeNode, Game.extract_subgame, List.mem_map] at hl
    obtain ⟨w, hw, rfl⟩ := hl
    rw [List.mem_filterMap] at hv
    obtain ⟨u, hu, hpos⟩ := hv
    exact posIn_lt_length _ _ _ hpos
  · intro i hi
    have hik : i < (keepList n g.n_nodes).length := by omega
    have hkd : (keepList n g.n_nodes).getD i 0 = if i < n then i else i + 1 :=
      getD_keepList n g.n_nodes i hn hi
    refine ⟨?_, ?_, ?_⟩
    · show ((keepList n g.n_nodes).map (fun v => g.owner.getD v 0)).getD i 0 = _
      rw [getD_map _ _ _ _ 0 hik, hkd]
    · show ((keepList n g.n_nodes).map (fun v =>
          (g.out.getD v []).filterMap (Game.posIn (keepList n g.n_nodes)))).getD i [] = _
      rw [getD_map _ _ _ _ 0 hik, hkd]
      apply List.filterMap_congr
      intro v hv
      have hj : (if i < n then i else i + 1) < g.out.length := by
        rw [houtl]
        split_ifs <;> omega
      have hvN : v < g.n_nodes := by
        apply hout (g.out.getD (if i < n then i else i + 1) []) ?_ v hv
        rw [getD_eq_getElem _ _ _ hj]
        exact List.getElem_mem hj
      rw [posIn_keepList]
      by_cases hvn : v = n
      · rw [if_pos (Or.inl hvn), if_pos hvn]
      · rw [if_neg (show ¬ (v = n ∨ g.n_nodes ≤ v) by omega), if_neg hvn]
    · show ((keepList n g.n_nodes).map (fun v =>
          (g.in_.getD v []).filterMap (Game.posIn (keepList n g.n_nodes)))).getD i [] = _
      rw [getD_map _ _ _ _ 0 hik, hkd]
      apply List.filterMap_congr
      intro v hv
      have hj : (if i < n then i else i + 1) < g.in_.length := by
        rw [hinl]
        split_ifs <;> omega
      have hvN : v < g.n_nodes := by
        apply hin (g.in_.getD (if i < n then i else i + 1) []) ?_ v hv
        rw [getD_eq_getElem _ _ _ hj]
        exact List.getElem_mem hj
      rw [posIn_keepList]
      by_cases hvn : v = n
      · rw [if_pos (Or.inl hvn), if_pos hvn]
      · rw [if_neg (show ¬ (v = n ∨ g.n_nodes ≤ v) by omega), if_neg hvn]

/-- Witness for C9: deleting node 3 of the spec's 4-node end-to-end
example leaves 3 nodes. -/
theorem C9_dense_indexing_witness : (removeNode gExample4 3).n_nodes = 4 - 1 :=
  (C9_dense_indexing gExample4 3 (by decide) (by decide)).1

/-- C10 counterexample: the claim says every sampler invocation satisfies
`low ≤ high` and that the pre-bottom-SCC node sample only happens on a
non-empty graph.  But on a one-node input, a successful action 2 (budget
1 is then exhausted) leaves `n_nodes = 0`, and the bottom-SCC option then
samples with bounds `(0, n_nodes - 1) = (0, -1)`, violating `low ≤ high`. -/
theorem C10_bottom_scc_call_violates_contract :
    (stepAttempt 0 gOne aNode0Act2).2 = true ∧
    bottomSccCall (stepAttempt 0 gOne aNode0Act2).1 = (0, -1) ∧
    ¬ ((bottomSccCall (stepAttempt 0 gOne aNode0Act2).1).1 ≤
       (bottomSccCall (stepAttempt 0 gOne aNode0Act2).1).2) := by decide

/-- C10 (amended): every sampler invocation inside one mutation attempt
on a non-empty graph satisfies `low ≤ high` (and failed attempts keep the
graph, so with the budget of one the whole loop only ever samples on the
non-empty input graph); the pre-bottom-SCC sample satisfies `low ≤ high`
only under the additional assumption that the graph is still non-empty
after mutation. -/
theorem C10_sampler_ranges_amended (profile : Int) (g : Game) (a : Attempt)
    (h : 1 ≤ g.n_nodes) :
    (∀ c ∈ attemptCalls profile g a, c.1 ≤ c.2) ∧
    ((stepAttempt profile g a).2 = false → (stepAttempt profile g a).1 = g) ∧
    (∀ g' : Game, 1 ≤ g'.n_nodes →
      (bottomSccCall g').1 ≤ (bottomSccCall g').2) := by
  refine ⟨?_, stepAttempt_fail_eq profile g a, ?_⟩
  · intro c hc
    unfold attemptCalls at hc
    dsimp only at hc
    simp only [List.mem_cons] at hc
    rcases hc with rfl | hc
    · show (0 : Int) ≤ (g.n_nodes : Int) - 1
      omega
    rcases hc with rfl | hc
    · show (0 : Int) ≤ _
      split_ifs <;> norm_num
    · split_ifs at hc <;>
        simp only [List.mem_singleton, List.not_mem_nil] at hc <;>
        subst hc <;> dsimp only <;> omega
  · intro g' h'
    show (0 : Int) ≤ (g'.n_nodes : Int) - 1
    omega

/-- Witness for C10 (amended): the bottom-SCC sample bounds are valid on
the non-empty one-node graph. -/
theorem C10_sampler_ranges_amended_witness :
    (bottomSccCall gOne).1 ≤ (bottomSccCall gOne).2 :=
  (C10_sampler_ranges_amended 0 gOne aNode0Act2 (by decide)).2.2 gOne (by decide)
